import Mathlib

/-!
Verification of the ST-FormatFixer text-repair pipeline (src/index.js).

The pipeline is embedded shallowly over `List Char`.  Every stage of
`TextProcessor.processText` is translated into an executable Lean function;
JavaScript regular-expression replaces are compiled by hand into scanning
functions with the exact greedy/lazy/lookaround semantics of the patterns
appearing in the source.
-/

set_option maxRecDepth 20000

namespace FormatFixer

/-- Text is modelled as a list of characters (JS strings over our ASCII inputs). -/
abbrev Str := List Char

/-- Convert a Lean string literal to the character-list model. -/
def s2l (s : String) : Str := s.data

/-- The apostrophe character (U+0027). -/
def apos : Char := Char.ofNat 39

/-- The backtick character (U+0060). -/
def btick : Char := Char.ofNat 96

/-- The em dash character (U+2014), used literally in `cleanupExcessSpaces`. -/
def emDash : Char := Char.ofNat 0x2014

/-- JS whitespace test (the subset relevant to the pipeline: the `\s` class
and `String.prototype.trim` on the characters the pipeline can encounter). -/
def isWS (c : Char) : Bool :=
  c == ' ' || c == '\t' || c == '\n' || c == '\r' ||
  c == Char.ofNat 11 || c == Char.ofNat 12 || c == Char.ofNat 0xA0 || c == Char.ofNat 0xFEFF

/-- JS `\w` word-character class: `[A-Za-z0-9_]`. -/
def isWordChar (c : Char) : Bool := c.isAlpha || c.isDigit || c == '_'

/-- ASCII alphanumeric, the `[a-zA-Z0-9]` class of the CYOA line test. -/
def isAlnumCh (c : Char) : Bool := c.isAlpha || c.isDigit

/-- ASCII digit, the `\d` class. -/
def isDigitCh (c : Char) : Bool := c.isDigit

/-- Character at an index, `none` when out of range (JS `text[i] === undefined`). -/
def chAt (s : Str) (i : Nat) : Option Char := (s.drop i).head?

/-- JS `substring(a, b)` for `a ≤ b`. -/
def subL (s : Str) (a b : Nat) : Str := (s.take b).drop a

/-- Length of the maximal run of characters satisfying `p` at the head. -/
def runLen (p : Char → Bool) : Str → Nat
  | [] => 0
  | c :: t => if p c then runLen p t + 1 else 0

/-- JS `String.prototype.trim`. -/
def jsTrim (s : Str) : Str :=
  ((s.dropWhile (fun c => isWS c)).reverse.dropWhile (fun c => isWS c)).reverse

/-- Split on the newline character, JS `split('\n')`. -/
def splitNl : Str → List Str
  | [] => [[]]
  | c :: t =>
    if c = '\n' then [] :: splitNl t
    else
      match splitNl t with
      | l :: ls => (c :: l) :: ls
      | [] => [[c]]

/-- Join with newlines, JS `join('\n')`. -/
def joinNl : List Str → Str
  | [] => []
  | [l] => l
  | l :: ls => l ++ '\n' :: joinNl ls

/-- Does `pat` occur as a contiguous substring of `s` (JS `includes`)? -/
def hasSubstr (pat : Str) : Str → Bool
  | [] => pat.isPrefixOf []
  | c :: t => if pat.isPrefixOf (c :: t) then true else hasSubstr pat t

/-- Split `s` around the first occurrence of `pat`:
`splitFirst pat s = some (pre, post)` with `s = pre ++ pat ++ post` and `pre`
minimal; `none` when `pat` does not occur. -/
def splitFirst (pat : Str) : Str → Option (Str × Str)
  | [] => if pat.isPrefixOf [] then some ([], []) else none
  | c :: t =>
    if pat.isPrefixOf (c :: t) then some ([], (c :: t).drop pat.length)
    else (splitFirst pat t).map (fun p => (c :: p.1, p.2))

/-- JS replacement-string `$`-substitution for a string `replace` with a
literal (capture-group-free) pattern: `$$`, `$&` (the match), a backtick form
(text before the match) and an apostrophe form (text after the match) are
interpreted; everything else is literal. -/
def dollarSub (bef mat aft : Str) : Str → Str
  | [] => []
  | c :: t =>
    if c = '$' then
      match t with
      | [] => ['$']
      | d :: t2 =>
        if d = '$' then '$' :: dollarSub bef mat aft t2
        else if d = '&' then mat ++ dollarSub bef mat aft t2
        else if d = btick then bef ++ dollarSub bef mat aft t2
        else if d = apos then aft ++ dollarSub bef mat aft t2
        else '$' :: dollarSub bef mat aft (d :: t2)
    else c :: dollarSub bef mat aft t

/-- One fuel-indexed step list for `jsReplaceAll`: replace every occurrence of
the literal `pat` by `repl` (with `$`-substitution), scanning left to right and
not rescanning replacements — the semantics of
`result.replace(new RegExp(escapedPlaceholder, 'g'), originalContent)`. -/
def jsRAGo (pat repl : Str) : Nat → Str → Str → Str
  | 0, _, s => s
  | f + 1, done, s =>
    if pat = [] then s
    else
      match splitFirst pat s with
      | none => s
      | some (pre, post) =>
        pre ++ dollarSub (done ++ pre) pat post repl ++ jsRAGo pat repl f (done ++ pre ++ pat) post

/-- Replace all occurrences of the literal `pat` in `s` by `repl`. -/
def jsReplaceAll (pat repl s : Str) : Str := jsRAGo pat repl (s.length + 1) [] s

/-- JS non-global `replace` with a plain string pattern: first occurrence only. -/
def jsReplaceOnce (pat repl s : Str) : Str :=
  if pat = [] then dollarSub [] [] s repl ++ s
  else
    match splitFirst pat s with
    | none => s
    | some (pre, post) => pre ++ dollarSub pre pat post repl ++ post

/-- Generic global regex replace driver.  The matcher receives the reversed
text before the current position (for lookbehind) and the remaining suffix,
and returns the number of characters consumed together with the replacement.
Matches are sought at every position left to right; scanning resumes after a
match; replacements are not rescanned. -/
def replG (m : Str → Str → Option (Nat × Str)) : Nat → Str → Str → Str
  | 0, _, s => s
  | _ + 1, _, [] => []
  | f + 1, rev, c :: t =>
    match m rev (c :: t) with
    | some (n, r) =>
      if n = 0 then c :: replG m f (c :: rev) t
      else r ++ replG m f (((c :: t).take n).reverse ++ rev) ((c :: t).drop n)
    | none => c :: replG m f (c :: rev) t

/-- Run a global replace with sufficient fuel. -/
def runRepl (m : Str → Str → Option (Nat × Str)) (s : Str) : Str :=
  replG m (s.length + 1) [] s

/-- Generic global regex match collector (JS `String.prototype.match` with the
`g` flag): the list of matched substrings, left to right. -/
def collectG (m : Str → Option Nat) : Nat → Str → List Str
  | 0, _ => []
  | _ + 1, [] => []
  | f + 1, c :: t =>
    match m (c :: t) with
    | some n =>
      if n = 0 then collectG m f t
      else ((c :: t).take n) :: collectG m f ((c :: t).drop n)
    | none => collectG m f t

/-- Run a global match collection with sufficient fuel. -/
def runCollect (m : Str → Option Nat) (s : Str) : List Str := collectG m (s.length + 1) s

/-! ## The uncensoring pre-pass (`uncensorText`)

Each rule of `uncensorRules` in the source is a case-insensitive regex built
from literal characters, `_+`/`c*`-style single-character quantifiers and
ordered alternatives of literal strings.  Patterns are compiled to token
lists; quantifiers backtrack greedily exactly as the JS engine does. -/

/-- One token of a compiled uncensor pattern. -/
inductive RTok where
  | lit (c : Char)
  | plus (c : Char)
  | star (c : Char)
  | alts (a : List (List Char))

/-- Length of the run of characters case-insensitively equal to `c`. -/
def ciRun (c : Char) (s : Str) : Nat := runLen (fun x => x.toLower == c) s

/-- Case-insensitive literal prefix test. -/
def ciPrefix : List Char → Str → Bool
  | [], _ => true
  | _ :: _, [] => false
  | p :: ps, c :: cs => c.toLower == p && ciPrefix ps cs

/-- The list `[hi, hi-1, ..., lo]` (empty when `hi < lo`), used to realise
greedy quantifier backtracking: longest consumption is tried first. -/
def descList : Nat → Nat → List Nat
  | 0, lo => if lo = 0 then [0] else []
  | h + 1, lo => if h + 1 < lo then [] else (h + 1) :: descList h lo

/-- Match a compiled token sequence at the head of `s`, returning the number
of characters consumed.  Quantifiers are greedy with backtracking; alternative
lists are tried in order. -/
def mSeqF : Nat → List RTok → Str → Option Nat
  | 0, _, _ => none
  | _ + 1, [], _ => some 0
  | f + 1, RTok.lit c :: ts, s =>
    match s with
    | [] => none
    | x :: rest => if x.toLower == c then (mSeqF f ts rest).map (· + 1) else none
  | f + 1, RTok.plus c :: ts, s =>
    (descList (ciRun c s) 1).findSome? (fun j => (mSeqF f ts (s.drop j)).map (· + j))
  | f + 1, RTok.star c :: ts, s =>
    (descList (ciRun c s) 0).findSome? (fun j => (mSeqF f ts (s.drop j)).map (· + j))
  | f + 1, RTok.alts a :: ts, s =>
    a.findSome? (fun w =>
      if ciPrefix w s then (mSeqF f ts (s.drop w.length)).map (· + w.length) else none)

/-- Replacement word of an uncensor rule: either a fixed word or one of the
special handler functions of the source. -/
inductive RWord where
  | basic (w : String)
  | tits
  | nakednude
  | jerk
  | pubis

/-- The word produced by a rule for a concrete matched string, mirroring the
source's replacement functions (all comparisons case-sensitive, as in JS). -/
def wordOf : RWord → Str → Str
  | RWord.basic w, _ => s2l w
  | RWord.tits, m =>
    if m.getLast? = some 's' then s2l "tits"
    else if (s2l "ies").isSuffixOf m then s2l "titties"
    else if m.getLast? = some 'y' then s2l "titty"
    else s2l "tit"
  | RWord.nakednude, m =>
    if 'k' ∈ m then (if hasSubstr (s2l "dity") m then s2l "nudity" else s2l "naked")
    else s2l "nude"
  | RWord.jerk, m => if (s2l "ing").isSuffixOf m then s2l "jerking" else s2l "jerked"
  | RWord.pubis, m =>
    if (s2l "is").isSuffixOf m then s2l "pubis"
    else if (s2l "ic").isSuffixOf m then s2l "pubic"
    else s2l "pubes"

/-- Case preservation of the source's replacement callback: all-caps matches
produce all-caps words, initial-capital matches produce capitalised words,
anything else the lowercase word. -/
def applyCase (mat w : Str) : Str :=
  if mat = mat.map Char.toUpper then w.map Char.toUpper
  else
    match mat with
    | m0 :: _ => if m0 = m0.toUpper then (match w with | c :: t => c.toUpper :: t | [] => []) else w
    | [] => w

/-- Lift a string to literal tokens. -/
def lits (s : String) : List RTok := s.data.map RTok.lit

/-- Compiled pattern table of `uncensorText`, in source order.  Each entry is
the ordered list of top-level alternatives together with its replacement. -/
def uncensorRules : List (List (List RTok) × RWord) :=
  [ ([lits "p" ++ RTok.plus '_' :: lits "nis", lits "p" ++ RTok.plus '_' :: lits "is"], RWord.basic "penis"),
    ([lits "v" ++ RTok.plus '_' :: lits "gina", lits "v" ++ RTok.plus '_' :: lits "ina"], RWord.basic "vagina"),
    ([lits "p" ++ [RTok.plus '_', RTok.plus 's'] ++ lits "y", lits "p" ++ RTok.plus '_' :: lits "y"], RWord.basic "pussy"),
    ([lits "f" ++ [RTok.plus '_', RTok.star 'c'] ++ lits "k"], RWord.basic "fuck"),
    ([lits "c" ++ [RTok.plus '_', RTok.star 'n'] ++ lits "t"], RWord.basic "cunt"),
    ([lits "a" ++ [RTok.plus '_', RTok.star 's'] ++ lits "hole"], RWord.basic "asshole"),
    ([lits "c" ++ [RTok.plus '_', RTok.star 'c'] ++ lits "k"], RWord.basic "cock"),
    ([lits "d" ++ [RTok.plus '_', RTok.star 'c'] ++ lits "k"], RWord.basic "dick"),
    ([lits "s" ++ RTok.plus '_' :: lits "x"], RWord.basic "sex"),
    ([lits "c" ++ RTok.plus '_' :: lits "me"], RWord.basic "came"),
    ([lits "c" ++ RTok.plus '_' :: lits "m"], RWord.basic "cum"),
    ([lits "n" ++ [RTok.plus '_', RTok.plus 'p'] ++ lits "le", lits "n" ++ RTok.plus '_' :: lits "le"], RWord.basic "nipple"),
    ([lits "p" ++ [RTok.plus '_', RTok.plus 's']], RWord.basic "piss"),
    ([lits "ur" ++ RTok.plus '_' :: lits "ne"], RWord.basic "urine"),
    ([lits "an" ++ RTok.plus '_' :: lits "s"], RWord.basic "anus"),
    ([lits "an" ++ RTok.plus '_' :: lits "l"], RWord.basic "anal"),
    ([lits "r" ++ [RTok.plus '_', RTok.star 'c'] ++ lits "tum"], RWord.basic "rectum"),
    ([lits "f" ++ RTok.plus '_' :: lits "g"], RWord.basic "fag"),
    ([lits "t" ++ RTok.plus '_' :: lits "t" ++ [RTok.alts [s2l "s", s2l "ies", s2l "y", []]]], RWord.tits),
    ([lits "n" ++ RTok.plus '_' :: lits "k" ++ [RTok.alts [s2l "ed", s2l "dity"]], lits "n" ++ RTok.plus '_' :: lits "de"], RWord.nakednude),
    ([lits "t" ++ [RTok.plus '_', RTok.alts [s2l "s", []]] ++ lits "icle"], RWord.basic "testicle"),
    ([lits "t" ++ [RTok.plus '_', RTok.alts [s2l "s", []]] ++ lits "cle"], RWord.basic "testicle"),
    ([lits "t" ++ [RTok.plus '_', RTok.alts [s2l "s", []]] ++ lits "es"], RWord.basic "testes"),
    ([lits "p" ++ [RTok.plus '_', RTok.alts [s2l "r", []]] ++ lits "n"], RWord.basic "porn"),
    ([lits "sh" ++ RTok.plus '_' :: lits "t"], RWord.basic "shit"),
    ([lits "sl" ++ RTok.plus '_' :: lits "t"], RWord.basic "slut"),
    ([lits "b" ++ [RTok.plus '_', RTok.alts [s2l "t", []]] ++ lits "ch"], RWord.basic "bitch"),
    ([lits "b" ++ [RTok.plus '_', RTok.alts [s2l "n", []]] ++ lits "er"], RWord.basic "boner"),
    ([lits "p" ++ RTok.plus '_' :: lits "b" ++ [RTok.alts [s2l "is", s2l "ic", s2l "es"]]], RWord.pubis),
    ([lits "s" ++ RTok.plus '_' :: lits "d"], RWord.basic "seed"),
    ([lits "s" ++ RTok.plus '_' :: lits "men"], RWord.basic "semen"),
    ([lits "er" ++ RTok.plus '_' :: lits "tic"], RWord.basic "erotic"),
    ([lits "j" ++ RTok.plus '_' :: lits "rk" ++ [RTok.alts [s2l "ing", s2l "ed"]]], RWord.jerk),
    ([lits "h" ++ RTok.plus '_' :: lits "rny"], RWord.basic "horny"),
    ([lits "b" ++ [RTok.plus '_', RTok.star 'o'] ++ lits "b"], RWord.basic "boob"),
    ([lits "a" ++ [RTok.plus '_', RTok.star 's'] ++ lits "s"], RWord.basic "ass"),
    ([lits "b" ++ RTok.plus '_' :: lits "ll"], RWord.basic "ball"),
    ([lits "wh" ++ RTok.plus '_' :: lits "ore"], RWord.basic "whore"),
    ([lits "w" ++ RTok.plus '_' :: lits "ore"], RWord.basic "whore"),
    ([lits "h" ++ RTok.plus '_' :: lits "le"], RWord.basic "hole") ]

/-- Matcher for one uncensor rule: first alternative matching at this position
wins; the replacement applies the rule's word with case preservation. -/
def uncensorM (r : List (List RTok) × RWord) : Str → Str → Option (Nat × Str) :=
  fun _ s =>
    match r.1.findSome? (fun p => mSeqF (p.length + 1) p s) with
    | some n => some (n, applyCase (s.take n) (wordOf r.2 (s.take n)))
    | none => none

/-- `uncensorText`: the ordered global replaces of the source, applied one
rule after the other. -/
def uncensorText (s : Str) : Str :=
  uncensorRules.foldl (fun acc r => runRepl (uncensorM r) acc) s

/-! ## Protected blocks (`extractProtectedBlocks` / `restoreProtectedBlocks`) -/

/-- The literal `<think>`. -/
def thinkOpenL : Str := s2l "<think>"

/-- The literal close tag of a think block. -/
def thinkCloseL : Str := s2l "</think>"

/-- The literal `" Message #"` anchor of the message-number label pattern. -/
def msgLit : Str := s2l " Message #"

/-- The protected-block placeholder prefix of the source. -/
def pbPrefix : Str := s2l "__PROTECTED_BLOCK_PLACEHOLDER_"

/-- The `n`-th protected-block placeholder. -/
def pbPh (n : Nat) : Str := pbPrefix ++ Nat.toDigits 10 n ++ s2l "__"

/-- Step 1: global replace of closed think blocks — repeatedly the first
`<think>` paired with the first following close tag (the non-greedy `.*?`),
each match replaced by a fresh placeholder.  Returns the new text, the
insertion-ordered placeholder map and the next counter value. -/
def thinkGo : Nat → Str → Nat → Str × List (Str × Str) × Nat
  | 0, s, idx => (s, [], idx)
  | f + 1, s, idx =>
    match splitFirst thinkOpenL s with
    | none => (s, [], idx)
    | some (pre, rest1) =>
      match splitFirst thinkCloseL rest1 with
      | none => (s, [], idx)
      | some (mid, rest2) =>
        let ph := pbPh idx
        let res := thinkGo f rest2 (idx + 1)
        (pre ++ ph ++ res.1, (ph, thinkOpenL ++ mid ++ thinkCloseL) :: res.2.1, res.2.2)

/-- Step 2: an unclosed `<think>` to end of text. -/
def unclosedThink (s : Str) (idx : Nat) : Str × List (Str × Str) × Nat :=
  match splitFirst thinkOpenL s with
  | none => (s, [], idx)
  | some (pre, rest) => (pre ++ pbPh idx, [(pbPh idx, thinkOpenL ++ rest)], idx + 1)

/-- Total length of the lazy anchored line match `^(.*? Message #\d+: )`:
the earliest occurrence of the literal anchor that is followed by one or more
digits and a colon-space, measured from the line start.  `none` when the line
has no such label. -/
def mmGo : Nat → Str → Nat → Option Nat
  | 0, _, _ => none
  | f + 1, s, p =>
    let tryNext : Option Nat :=
      match s with
      | [] => none
      | _ :: t => mmGo f t (p + 1)
    if msgLit.isPrefixOf s then
      let r := s.drop msgLit.length
      let k := runLen isDigitCh r
      if k ≠ 0 ∧ (s2l ": ").isPrefixOf (r.drop k) then some (p + msgLit.length + k + 2)
      else tryNext
    else tryNext

/-- Matched length of the message-number label at the start of a line. -/
def msgMatchLen (line : Str) : Option Nat := mmGo (line.length + 1) line 0

/-- Step 3 worker: process the lines in order, threading the counter. -/
def msgStepGo : List Str → Nat → List Str × List (Str × Str) × Nat
  | [], idx => ([], [], idx)
  | l :: rest, idx =>
    match msgMatchLen l with
    | some n =>
      let ph := pbPh idx
      let res := msgStepGo rest (idx + 1)
      ((ph ++ l.drop n) :: res.1, (ph, l.take n) :: res.2.1, res.2.2)
    | none =>
      let res := msgStepGo rest idx
      (l :: res.1, res.2.1, res.2.2)

/-- Step 3: per-line extraction of leading message-number labels. -/
def msgStep (s : Str) (idx : Nat) : Str × List (Str × Str) × Nat :=
  let res := msgStepGo (splitNl s) idx
  (joinNl res.1, res.2.1, res.2.2)

/-- Step 4: global replace of bracketed asides `[` … `]` (non-greedy, may
span newlines). -/
def bracketGo : Nat → Str → Nat → Str × List (Str × Str) × Nat
  | 0, s, idx => (s, [], idx)
  | f + 1, s, idx =>
    match splitFirst ['['] s with
    | none => (s, [], idx)
    | some (pre, rest1) =>
      match splitFirst [']'] rest1 with
      | none => (s, [], idx)
      | some (mid, rest2) =>
        let ph := pbPh idx
        let res := bracketGo f rest2 (idx + 1)
        (pre ++ ph ++ res.1, (ph, '[' :: mid ++ [']']) :: res.2.1, res.2.2)

/-- Step 5: an unclosed `[` to end of text. -/
def unclosedBracket (s : Str) (idx : Nat) : Str × List (Str × Str) × Nat :=
  match splitFirst ['['] s with
  | none => (s, [], idx)
  | some (pre, rest) => (pre ++ pbPh idx, [(pbPh idx, '[' :: rest)], idx + 1)

/-- `extractProtectedBlocks`: the five extraction steps in source order,
returning the text with placeholders and the insertion-ordered map. -/
def extractProtectedBlocks (s : Str) : Str × List (Str × Str) :=
  let r1 := thinkGo (s.length + 1) s 0
  let r2 := unclosedThink r1.1 r1.2.2
  let r3 := msgStep r2.1 r2.2.2
  let r4 := bracketGo (r3.1.length + 1) r3.1 r3.2.2
  let r5 := unclosedBracket r4.1 r4.2.2
  (r5.1, r1.2.1 ++ r2.2.1 ++ r3.2.1 ++ r4.2.1 ++ r5.2.1)

/-- `restoreProtectedBlocks`: replace every occurrence of every placeholder by
its content, iterating the map in insertion order. -/
def restoreProtectedBlocks (s : Str) (m : List (Str × Str)) : Str :=
  m.foldl (fun acc p => jsReplaceAll p.1 p.2 acc) s

/-! ## Smart-character normalization (`normalizeSmartCharacters`) -/

/-- Membership of a character's code point in a list of code points. -/
def inCodes (c : Char) (l : List Nat) : Bool := l.contains c.toNat

/-- `normalizeSmartCharacters`: the sequential character-class replaces of the
source fused into one pass (the classes and replacement characters are
disjoint from every later class, so the fusion is exact). -/
def normalizeSmartCharacters (s : Str) : Str :=
  s.flatMap (fun c =>
    if inCodes c [0xAB, 0xBB, 0x201C, 0x201D, 0x2BA, 0x2EE, 0x201F, 0x275D, 0x275E, 0x301D, 0x301E, 0xFF02] then ['"']
    else if inCodes c [0x2018, 0x2019, 0x2BB, 0x2C8, 0x2BC, 0x2BD, 0x2B9, 0x201B, 0xFF07, 0x2CA, 0x275B, 0x275C, 0x313, 0x314] then [apos]
    else if inCodes c [0x2010, 0x2043, 0x23BC, 0x23BD, 0xFE63, 0xFF0D] then ['-']
    else if c.toNat = 0x2013 then ['-']
    else if c.toNat = 0x2015 then [emDash]
    else if c.toNat = 0x2026 then ['.', '.', '.']
    else if inCodes c ([0xA0, 0x202F, 0x205F, 0x3000, 0xFEFF] ++ (List.range 11).map (0x2000 + ·)) then [' ']
    else if inCodes c [0x2022, 0x2043, 0x2219, 0x25D8, 0x25E6, 0x2619, 0x2765, 0x2767] then ['*']
    else if c.toNat = 0x2053 then ['~']
    else [c])

/-! ## Height-measurement protection -/

/-- The `n`-th height-measurement placeholder. -/
def hmPh (n : Nat) : Str := s2l "__HEIGHT_MEASUREMENT_" ++ Nat.toDigits 10 n ++ s2l "__"

/-- Length of a height-measurement match at the head of `s`: one or more
digits, an apostrophe, two digits (or, backtracking, one digit) and a double
quote. -/
def heightMatchLen (s : Str) : Option Nat :=
  let k := runLen isDigitCh s
  if k = 0 then none
  else
    match s.drop k with
    | q :: rest =>
      if q = apos then
        match rest with
        | a :: b :: c :: _ =>
          if isDigitCh a ∧ isDigitCh b ∧ c = '"' then some (k + 4)
          else if isDigitCh a ∧ b = '"' then some (k + 3)
          else none
        | [a, b] => if isDigitCh a ∧ b = '"' then some (k + 3) else none
        | _ => none
      else none
    | [] => none

/-- `protectHeightMeasurements` worker: global scan with a fresh counter. -/
def protectHGo : Nat → Str → Nat → Str × List (Str × Str)
  | 0, s, _ => (s, [])
  | _ + 1, [], _ => ([], [])
  | f + 1, c :: t, idx =>
    match heightMatchLen (c :: t) with
    | some n =>
      let ph := hmPh idx
      let res := protectHGo f ((c :: t).drop n) (idx + 1)
      (ph ++ res.1, (ph, (c :: t).take n) :: res.2)
    | none =>
      let res := protectHGo f t idx
      (c :: res.1, res.2)

/-- `protectHeightMeasurements`. -/
def protectHeightMeasurements (s : Str) : Str × List (Str × Str) :=
  protectHGo (s.length + 1) s 0

/-- `restoreHeightMeasurements`. -/
def restoreHeightMeasurements (s : Str) (m : List (Str × Str)) : Str :=
  m.foldl (fun acc p => jsReplaceAll p.1 p.2 acc) s

/-! ## Stage 1: `processQuotes` (gated behind the Process Quotes setting) -/

/-- First pattern: an emphasis pair directly wrapping a complete quote —
remove both markers. -/
def pqM1 : Str → Str → Option (Nat × Str) :=
  fun _ s =>
    match s with
    | '*' :: '"' :: rest =>
      let k := runLen (fun c => c ≠ '"') rest
      match rest.drop k with
      | '"' :: '*' :: _ => some (2 + k + 2, '"' :: rest.take k ++ ['"'])
      | _ => none
    | _ => none

/-- Second pattern: a marker before a complete quote with no marker after the
trailing spaces (negative lookahead); the marker and the spaces are dropped. -/
def pqM2 : Str → Str → Option (Nat × Str) :=
  fun _ s =>
    match s with
    | '*' :: '"' :: rest =>
      let k := runLen (fun c => c ≠ '"') rest
      match rest.drop k with
      | '"' :: after =>
        let sp := runLen (fun c => c = ' ') after
        let quote : Str := '"' :: rest.take k ++ ['"']
        if sp = 0 then
          if chAt after 0 = some '*' then none else some (2 + k + 1, quote)
        else
          let j := if chAt after sp = some '*' then sp - 1 else sp
          some (2 + k + 1 + j, quote)
      | _ => none
    | _ => none

/-- Third pattern: spaces and a complete quote followed by a marker, with no
marker before (negative lookbehind); the marker and the spaces are dropped. -/
def pqM3 : Str → Str → Option (Nat × Str) :=
  fun rev s =>
    if rev.head? = some '*' then none
    else
      let sp := runLen (fun c => c = ' ') s
      match s.drop sp with
      | '"' :: rest =>
        let k := runLen (fun c => c ≠ '"') rest
        match rest.drop k with
        | '"' :: '*' :: _ => some (sp + 2 + k + 1, '"' :: rest.take k ++ ['"'])
        | _ => none
      | _ => none

/-- `processQuotes`: the three ordered substitutions. -/
def processQuotes (s : Str) : Str := runRepl pqM3 (runRepl pqM2 (runRepl pqM1 s))

/-! ## Stage 1.5: `cleanupConsecutiveQuotes` -/

/-- First pattern: 2+ quotes, content, 2+ quotes — collapse both runs. -/
def ccqM1 : Str → Str → Option (Nat × Str) :=
  fun _ s =>
    let q1 := runLen (fun c => c = '"') s
    if q1 < 2 then none
    else
      let rest := s.drop q1
      let r := runLen (fun c => c ≠ '"') rest
      if r = 0 then none
      else
        let q2 := runLen (fun c => c = '"') (rest.drop r)
        if q2 < 2 then none
        else some (q1 + r + q2, '"' :: rest.take r ++ ['"'])

/-- Second pattern: 2+ quotes, content, one quote, spaces not followed by a
marker — collapse the leading run and drop the spaces. -/
def ccqM2 : Str → Str → Option (Nat × Str) :=
  fun _ s =>
    let q1 := runLen (fun c => c = '"') s
    if q1 < 2 then none
    else
      let rest := s.drop q1
      let r := runLen (fun c => c ≠ '"') rest
      if r = 0 then none
      else
        match rest.drop r with
        | '"' :: after =>
          let sp := runLen (fun c => c = ' ') after
          let quote : Str := '"' :: rest.take r ++ ['"']
          if sp = 0 then
            if chAt after 0 = some '*' then none else some (q1 + r + 1, quote)
          else
            let j := if chAt after sp = some '*' then sp - 1 else sp
            some (q1 + r + 1 + j, quote)
        | _ => none

/-- Third pattern: spaces, content, 2+ quotes with no marker before — keep the
content (beyond the spaces the content capture had to give up) and one quote. -/
def ccqM3 : Str → Str → Option (Nat × Str) :=
  fun rev s =>
    if rev.head? = some '*' then none
    else
      let sp := runLen (fun c => c = ' ') s
      let n := runLen (fun c => c ≠ '"') s
      if n = 0 then none
      else
        let q := runLen (fun c => c = '"') (s.drop n)
        if q < 2 then none
        else
          let cs := min sp (n - 1)
          some (n + q, subL s cs n ++ ['"'])

/-- `cleanupConsecutiveQuotes`. -/
def cleanupConsecutiveQuotes (s : Str) : Str := runRepl ccqM3 (runRepl ccqM2 (runRepl ccqM1 s))

/-! ## Stage 2: `processNestedEmphasis` -/

/-- The `[\w'-]` class of the single-word patterns. -/
def isWordApos (c : Char) : Bool := isWordChar c || c == apos || c == '-'

/-- The optional trailing punctuation class of the single-word patterns. -/
def isPunctCls (c : Char) : Bool :=
  c == '?' || c == '!' || c == '.' || c == '/' || c == ',' || c == ':' || c == '\\'

/-- Single-word italics: a marker not preceded or followed by another marker
around one word (with optional trailing punctuation) becomes bold. -/
def pneM : Str → Str → Option (Nat × Str) :=
  fun rev s =>
    if rev.head? = some '*' then none
    else
      match s with
      | '*' :: rest =>
        let w := runLen isWordApos rest
        if w = 0 then none
        else
          let p := if (chAt rest w).any isPunctCls then 1 else 0
          match rest.drop (w + p) with
          | '*' :: tl =>
            if tl.head? = some '*' then none
            else some (1 + w + p + 1, '*' :: '*' :: rest.take (w + p) ++ ['*', '*'])
          | _ => none
      | _ => none

/-- `processNestedEmphasis`. -/
def processNestedEmphasis (s : Str) : Str := runRepl pneM s

/-! ## Stage 3: `cleanupQuadrupleAsterisks` -/

/-- Emit a marker run after collapse: runs of four or more become three. -/
def cqaStars (n : Nat) : Str := List.replicate (if 4 ≤ n then 3 else n) '*'

/-- Worker for the global replace of `4+`-marker runs by three markers: `n`
counts the current pending run. -/
def cqaGo : Str → Nat → Str
  | [], n => cqaStars n
  | c :: t, n => if c = '*' then cqaGo t (n + 1) else cqaStars n ++ c :: cqaGo t 0

/-- `cleanupQuadrupleAsterisks`: every maximal run of 4 or more `*` becomes
exactly `***`. -/
def cleanupQuadrupleAsterisks (s : Str) : Str := cqaGo s 0

/-! ## Stage 4: `cleanupUnpairedDoubleAsterisks` -/

/-- The `[\w'"-]` class used by the unpaired double-marker fragments. -/
def isWordAposQ (c : Char) : Bool := isWordApos c || c == '"'

/-- Matched length of a complete bold pair over word content. -/
def cpLen : Str → Option Nat
  | '*' :: '*' :: rest =>
    let w := runLen isWordApos rest
    if w = 0 then none
    else
      let p := if (chAt rest w).any isPunctCls then 1 else 0
      match rest.drop (w + p) with
      | '*' :: '*' :: _ => some (2 + w + p + 2)
      | _ => none
  | _ => none

/-- Matched length of a leading `**` fragment with word content after it. -/
def saLen : Str → Option Nat
  | '*' :: '*' :: rest =>
    let w := runLen isWordAposQ rest
    if w = 0 then none
    else
      let p := if (chAt rest w).any isPunctCls then 1 else 0
      some (2 + w + p)
  | _ => none

/-- Matched length of a trailing `**` fragment with word content before it. -/
def eaLen (s : Str) : Option Nat :=
  let w := runLen isWordAposQ s
  if w = 0 then none
  else
    let p := if (chAt s w).any isPunctCls then 1 else 0
    match s.drop (w + p) with
    | '*' :: '*' :: _ => some (w + p + 2)
    | _ => none

/-- Look-ahead of the fragment-cleaning loop: from `sp` onward, find the next
`**`; when found, decide at once (no further search) whether the text between
`i+2` and that position is a non-empty marker-free pair body. -/
def icSearch (m : Str) (i : Nat) : Nat → Nat → Option Nat
  | 0, _ => none
  | f + 1, sp =>
    if sp + 1 < m.length then
      if chAt m sp = some '*' ∧ chAt m (sp + 1) = some '*' then
        let between := jsTrim (subL m (i + 2) sp)
        if between ≠ [] ∧ hasSubstr (s2l "**") between = false then some (sp + 2) else none
      else icSearch m i f (sp + 1)
    else none

/-- The character-walk of the source that rebuilds a matched fragment keeping
complete bold pairs and dropping unpaired `**` markers. -/
def icGo (m : Str) : Nat → Nat → Str → Str
  | 0, _, cl => cl
  | f + 1, i, cl =>
    if i < m.length then
      if i + 1 < m.length ∧ chAt m i = some '*' ∧ chAt m (i + 1) = some '*' then
        match icSearch m i (m.length + 1) (i + 2) with
        | some e => icGo m f e (cl ++ subL m i e)
        | none => icGo m f (i + 2) cl
      else icGo m f (i + 1) (cl ++ (chAt m i).toList)
    else cl

/-- Clean one collected fragment. -/
def innerClean (m : Str) : Str := icGo m (m.length + 1) 0 []

/-- `cleanupUnpairedDoubleAsterisks`: collect complete pairs, then leftover
start/end fragments on a working copy with the pairs removed, and replace each
fragment whose cleaning changed it (first occurrence) in the original text. -/
def cleanupUnpairedDoubleAsterisks (text : Str) : Str :=
  let completePairs := runCollect cpLen text
  let working :=
    if completePairs = [] then text
    else runRepl (fun _ s => (cpLen s).map (fun n => (n, []))) text
  let startA := runCollect saLen working
  let endA := runCollect eaLen working
  let allMatches := completePairs ++ startA ++ endA
  if allMatches = [] then text
  else
    allMatches.foldl
      (fun res m =>
        let cleaned := innerClean m
        if m ≠ cleaned then jsReplaceOnce m cleaned res else res)
      text

/-! ## Stage 4.1: `cleanupLoneAsterisks` -/

/-- The punctuation class of the lone-marker patterns. -/
def isLonePunct (c : Char) : Bool := c == '.' || c == ',' || c == '!' || c == '?' || c == ':'

/-- One lone-marker match inside a quote span: a `*` with a word boundary,
whitespace or punctuation on exactly one side; the replacement is the match
with its (first) `*` removed. -/
def loneM : Str → Str → Option (Nat × Str) :=
  fun rev s =>
    match s with
    | '*' :: tl =>
      -- first alternative with the zero-width boundary: previous char is a word char
      if (rev.head?.any isWordChar) ∧ tl.head? ≠ some '*' then some (1, [])
      else if rev.head? ≠ some '*' ∧ (tl.head?.any isWordChar) then some (1, [])
      else if rev.head? ≠ some '*' ∧ (tl.head?.any (fun c => isWS c || isLonePunct c)) then
        some (2, tl.take 1)
      else none
    | c :: '*' :: tl2 =>
      if (isWS c || isLonePunct c) ∧ tl2.head? ≠ some '*' then some (2, [c]) else none
    | _ => none

/-- Whitespace-run collapse inside a quote span. -/
def wsRunM : Str → Str → Option (Nat × Str) :=
  fun _ s =>
    let k := runLen isWS s
    if 2 ≤ k then some (k, [' ']) else none

/-- The quote-span matcher of stage 4.1: a complete `"…"` span, replaced by
the span with lone markers removed and whitespace runs collapsed. -/
def loneQuoteM : Str → Str → Option (Nat × Str) :=
  fun _ s =>
    match s with
    | '"' :: rest =>
      let k := runLen (fun c => c ≠ '"') rest
      match rest.drop k with
      | '"' :: _ =>
        let span : Str := '"' :: rest.take k ++ ['"']
        some (2 + k, runRepl wsRunM (runRepl loneM span))
      | _ => none
    | _ => none

/-- `cleanupLoneAsterisks`. -/
def cleanupLoneAsterisks (s : Str) : Str := runRepl loneQuoteM s

/-! ## Stages 4.2 and 4.3: marker / quote spacing -/

/-- `cleanupAsteriskSpacing` matcher: a `*`-wrapped span with whitespace or a
boundary on both outer sides; interior whitespace is trimmed. -/
def astSpM : Str → Str → Option (Nat × Str) :=
  fun rev s =>
    if rev.head?.any (fun c => ¬ isWS c) then none
    else
      match s with
      | '*' :: rest =>
        let k := runLen (fun c => c ≠ '*') rest
        if k = 0 then none
        else
          match rest.drop k with
          | '*' :: after =>
            if after.head?.any (fun c => ¬ isWS c) then none
            else some (2 + k, '*' :: jsTrim (rest.take k) ++ ['*'])
          | _ => none
      | _ => none

/-- `cleanupAsteriskSpacing`. -/
def cleanupAsteriskSpacing (s : Str) : Str := runRepl astSpM s

/-- `cleanupQuoteSpacing` matcher: the same with quote characters. -/
def quoSpM : Str → Str → Option (Nat × Str) :=
  fun rev s =>
    if rev.head?.any (fun c => ¬ isWS c) then none
    else
      match s with
      | '"' :: rest =>
        let k := runLen (fun c => c ≠ '"') rest
        if k = 0 then none
        else
          match rest.drop k with
          | '"' :: after =>
            if after.head?.any (fun c => ¬ isWS c) then none
            else some (2 + k, '"' :: jsTrim (rest.take k) ++ ['"'])
          | _ => none
      | _ => none

/-- `cleanupQuoteSpacing`. -/
def cleanupQuoteSpacing (s : Str) : Str := runRepl quoSpM s

/-! ## Stage 5: the segmenter (`splitBetweenQuotes`, `isWithinEmphasis`) and
`processNarrative` -/

/-- Section kinds of `splitBetweenQuotes`. -/
inductive SKind where
  | narrative
  | quote
  | code
  | nl
deriving DecidableEq, Repr

/-- One section: the exact raw slice, the trimmed text and the kind. -/
structure Sect where
  raw : Str
  txt : Str
  typ : SKind
deriving DecidableEq, Repr

/-- Walk back from `pos` to the paragraph start (the character after the
previous newline). -/
def paraStart (t : Str) : Nat → Nat → Nat
  | 0, ps => ps
  | f + 1, ps =>
    if 0 < ps then
      if chAt t (ps - 1) ≠ some '\n' then paraStart t f (ps - 1) else ps
    else ps

/-- The inner scan of the opener loop: the first single `*` strictly between
`i` and `position` (not adjacent to another `*`). -/
def iweInner (t : Str) (position : Nat) : Nat → Nat → Option Nat
  | 0, _ => none
  | f + 1, j =>
    if j < position then
      if chAt t j = some '*' ∧ chAt t (j - 1) ≠ some '*' ∧ chAt t (j + 1) ≠ some '*' then some j
      else iweInner t position f (j + 1)
    else none

/-- The opener loop of `isWithinEmphasis`: scan from the paragraph start for
an unpaired single opening `*` before `position`, skipping bold pairs, markers
followed by whitespace and complete single pairs. -/
def iweOpen (t : Str) (position : Nat) : Nat → Nat → Bool
  | 0, _ => false
  | f + 1, i =>
    if i < position then
      if chAt t i = some '*' then
        if chAt t (i + 1) = some '*' then iweOpen t position f (i + 2)
        else if chAt t (i + 1) = some ' ' ∨ chAt t (i + 1) = some '\t' then iweOpen t position f (i + 1)
        else
          match iweInner t position (position + 1) (i + 1) with
          | some j => iweOpen t position f (j + 2)
          | none => true
      else iweOpen t position f (i + 1)
    else false

/-- The closer loop of `isWithinEmphasis`: from `position + 1` to the
paragraph end, the first single `*`; a closer preceded by whitespace
disqualifies the whole search. -/
def iweClose (t : Str) (pEnd : Nat) : Nat → Nat → Bool
  | 0, _ => false
  | f + 1, i =>
    if i < pEnd then
      if chAt t i = some '*' ∧ chAt t (i - 1) ≠ some '*' ∧ chAt t (i + 1) ≠ some '*' then
        if chAt t (i - 1) = some ' ' ∨ chAt t (i - 1) = some '\t' then false else true
      else iweClose t pEnd f (i + 1)
    else false

/-- `isWithinEmphasis text position`: is the quote character at `position`
inside an unterminated single-emphasis run of the current paragraph? -/
def isWithinEmphasis (t : Str) (position : Nat) : Bool :=
  let ps := paraStart t (position + 1) position
  let pEnd :=
    match splitFirst ['\n'] (t.drop position) with
    | some (pre, _) => position + pre.length
    | none => t.length
  if iweOpen t position (position + 1) ps then iweClose t pEnd (pEnd + 1) (position + 1)
  else false

/-- Placeholder length at index `i` of the text: the protected-block
placeholder pattern (`prefix`, digits, underscores) matched at exactly this
position. -/
def phMatchLen (t : Str) (i : Nat) : Option Nat :=
  let s := t.drop i
  if pbPrefix.isPrefixOf s then
    let r := s.drop pbPrefix.length
    let k := runLen isDigitCh r
    if k = 0 then none
    else if (s2l "__").isPrefixOf (r.drop k) then some (pbPrefix.length + k + 2) else none
  else none

/-- Capture a code span starting at the backtick at `i`; returns the raw
span and the index of the last consumed character. -/
def codeCapture (t : Str) (i : Nat) : Str × Nat :=
  let isTriple := i + 2 < t.length ∧ chAt t (i + 1) = some btick ∧ chAt t (i + 2) = some btick
  let start := if isTriple then i + 3 else i + 1
  let startBuf : Str := if isTriple then [btick, btick, btick] else [btick]
  let rec loop : Nat → Nat → Str → Str × Nat
    | 0, j, buf => (buf, j)
    | f + 1, j, buf =>
      if j < t.length then
        let c := (chAt t j).getD ' '
        let buf := buf ++ [c]
        if c = btick then
          if ¬ isTriple then (buf, j)
          else if j + 2 < t.length ∧ chAt t (j + 1) = some btick ∧ chAt t (j + 2) = some btick then
            (buf ++ [btick, btick], j + 2)
          else loop f (j + 1) buf
        else loop f (j + 1) buf
      else (buf, j)
  loop (t.length + 1) start startBuf

/-- Capture a quoted span starting at the quote at `i`; returns the raw span
(with at most one adjacent space on each side) and the index of the last
consumed character. -/
def quoteCapture (t : Str) (i : Nat) : Str × Nat :=
  let leading : Str := if 0 < i ∧ chAt t (i - 1) = some ' ' then [' '] else []
  let rec loop : Nat → Nat → Str → Str × Nat
    | 0, j, buf => (buf, j)
    | f + 1, j, buf =>
      if j < t.length then
        if chAt t j = some '"' then
          let buf := buf ++ ['"']
          if j + 1 < t.length ∧ chAt t (j + 1) = some ' ' then (buf ++ [' '], j + 1) else (buf, j)
        else loop f (j + 1) (buf ++ (chAt t j).toList)
      else (buf, j - 1)
  loop (t.length + 1) (i + 1) (leading ++ ['"'])

/-- Capture a CYOA line starting at `i` (enumerator and delimiter already
checked); returns the raw line (with its newline when present) and the index
of the last consumed character. -/
def cyoaCapture (t : Str) (i : Nat) : Str × Nat :=
  let buf0 : Str := (chAt t i).toList ++ (chAt t (i + 1)).toList
  let rec loop : Nat → Nat → Str → Str × Nat
    | 0, j, buf => (buf, j)
    | f + 1, j, buf =>
      if j < t.length then
        if chAt t j = some '\n' then (buf ++ ['\n'], j)
        else loop f (j + 1) (buf ++ (chAt t j).toList)
      else (buf, j - 1)
  loop (t.length + 1) (i + 2) buf0

/-- Push the narrative buffer as a section when non-empty. -/
def pushBuf (buf : Str) (acc : List Sect) : List Sect :=
  if buf = [] then acc else ⟨buf, jsTrim buf, SKind.narrative⟩ :: acc

/-- The main scan of `splitBetweenQuotes` (accumulator reversed). -/
def sbqGo (t : Str) : Nat → Nat → Str → List Sect → List Sect
  | 0, _, buf, acc => pushBuf buf acc
  | f + 1, i, buf, acc =>
    if i < t.length then
      match phMatchLen t i with
      | some n =>
        let ph := subL t i (i + n)
        sbqGo t f (i + n) [] (⟨ph, ph, SKind.code⟩ :: pushBuf buf acc)
      | none =>
        let c := (chAt t i).getD ' '
        if c = btick then
          let r := codeCapture t i
          sbqGo t f (r.2 + 1) [] (⟨r.1, r.1, SKind.code⟩ :: pushBuf buf acc)
        else if (buf = [] ∨ buf.getLast? = some '\n') ∧ isAlnumCh c ∧ i + 1 < t.length ∧
                ((chAt t (i + 1)).any (fun d => d = '.' ∨ d = '>' ∨ d = ')')) then
          let r := cyoaCapture t i
          sbqGo t f (r.2 + 1) [] (⟨r.1, r.1, SKind.code⟩ :: pushBuf buf acc)
        else if c = '*' then
          sbqGo t f (i + 1) (buf ++ ['*']) acc
        else if c = '"' ∧ ¬ isWithinEmphasis t i then
          let r := quoteCapture t i
          sbqGo t f (r.2 + 1) [] (⟨r.1, jsTrim r.1, SKind.quote⟩ :: pushBuf buf acc)
        else if c = '\n' then
          let k := runLen (fun d => d = '\n') (t.drop i)
          let raw : Str := if 1 < k then ['\n', '\n'] else ['\n']
          sbqGo t f (i + k) [] (⟨raw, [], SKind.nl⟩ :: pushBuf (buf ++ ['\n']) acc)
        else sbqGo t f (i + 1) (buf ++ [c]) acc
    else pushBuf buf acc

/-- `splitBetweenQuotes`. -/
def splitBetweenQuotes (t : Str) : List Sect :=
  ((sbqGo t (t.length + 1) 0 [] []).reverse).filter (fun s => s.txt ≠ [] ∨ s.typ = SKind.nl)

/-- `isItalicized`: exactly one emphasis pair around marker-free content. -/
def isItalicized (s : Str) : Bool :=
  s.head? = some '*' && s.getLast? = some '*' && decide (3 ≤ s.length) &&
  ((s.drop 1).dropLast.all (fun c => c ≠ '*'))

/-- The joining loop of `processNarrative`. -/
def pnGo : List Sect → Str → Str
  | [], res => res
  | sec :: rest, res =>
    let res :=
      if res ≠ [] ∧ sec.raw ≠ [] ∧ res.getLast? = some ' ' ∧ sec.raw.head? = some ' ' then
        res.dropLast
      else res
    match sec.typ with
    | SKind.nl => pnGo rest (res ++ sec.raw)
    | SKind.quote => pnGo rest (res ++ sec.raw)
    | SKind.code => pnGo rest (res ++ sec.raw)
    | SKind.narrative =>
      if ¬ isItalicized sec.txt then
        let res :=
          if sec.txt.head? ≠ some '*' then
            (if res ≠ [] ∧ res.getLast? ≠ some ' ' ∧ res.getLast? ≠ some '\n' then res ++ [' ']
             else res) ++ ['*']
          else res
        let res := res ++ sec.txt
        let res :=
          if sec.txt.getLast? ≠ some '*' then
            let res := res ++ ['*']
            if rest ≠ [] ∧ sec.txt.getLast? ≠ some ' ' ∧
               (rest.head?.map Sect.typ) ≠ some SKind.nl then res ++ [' ']
            else res
          else res
        pnGo rest res
      else pnGo rest (res ++ sec.raw)

/-- `processNarrative`. -/
def processNarrative (t : Str) : Str := jsTrim (pnGo (splitBetweenQuotes t) [])

/-! ## Stages 6 and 6.5: newline and space cleanup -/

/-- 3+ newlines collapse to exactly 2. -/
def nlRunM : Str → Str → Option (Nat × Str) :=
  fun _ s =>
    let k := runLen (fun c => c = '\n') s
    if 3 ≤ k then some (k, ['\n', '\n']) else none

/-- `cleanupExcessNewlines`. -/
def cleanupExcessNewlines (s : Str) : Str := runRepl nlRunM s

/-- 2+ spaces collapse to one. -/
def spRunM : Str → Str → Option (Nat × Str) :=
  fun _ s =>
    let k := runLen (fun c => c = ' ') s
    if 2 ≤ k then some (k, [' ']) else none

/-- The literal ` ... ` becomes `...`. -/
def dotsM : Str → Str → Option (Nat × Str) :=
  fun _ s => if (s2l " ... ").isPrefixOf s then some (5, s2l "...") else none

/-- A space before sentence punctuation (including the em dash) is dropped. -/
def spPunctM : Str → Str → Option (Nat × Str) :=
  fun _ s =>
    match s with
    | ' ' :: c :: _ =>
      if c = '.' ∨ c = ',' ∨ c = '!' ∨ c = '?' ∨ c = ';' ∨ c = ':' ∨ c = emDash then
        some (2, [c])
      else none
    | _ => none

/-- `cleanupExcessSpaces`: the three ordered replaces. -/
def cleanupExcessSpaces (s : Str) : Str :=
  runRepl spPunctM (runRepl dotsM (runRepl spRunM s))

/-! ## Stage 7: `mergeNestedEmphasis` -/

/-- Mark complete bold pairs with `@@` delimiters. -/
def atAtM : Str → Str → Option (Nat × Str) :=
  fun _ s =>
    match s with
    | '*' :: '*' :: rest =>
      let k := runLen (fun c => c ≠ '*') rest
      if k = 0 then none
      else
        match rest.drop k with
        | '*' :: '*' :: _ => some (k + 4, '@' :: '@' :: rest.take k ++ ['@', '@'])
        | _ => none
    | _ => none

/-- Restore `@@`-marked pairs to bold. -/
def atRestoreM : Str → Str → Option (Nat × Str) :=
  fun _ s =>
    match s with
    | '@' :: '@' :: rest =>
      let k := runLen (fun c => c ≠ '@') rest
      if k = 0 then none
      else
        match rest.drop k with
        | '@' :: '@' :: _ => some (k + 4, '*' :: '*' :: rest.take k ++ ['*', '*'])
        | _ => none
    | _ => none

/-- The third-marker cleanup of a section buffer: protect bold pairs, strip
every single marker after the leading one, restore the pairs. -/
def mneCleanBuf (b : Str) : Str :=
  let marked := runRepl atAtM b
  let stripped := '*' :: (marked.drop 1).filter (fun c => c ≠ '*')
  runRepl atRestoreM stripped

/-- The scan of `mergeNestedEmphasis`: state is the output so far, whether a
section is open, the single-marker count and the section buffer. -/
def mneGo (t : Str) : Nat → Nat → Str → Bool → Nat → Str → Str
  | 0, _, res, inSec, cnt, buf =>
    if inSec then res ++ (if 3 ≤ cnt then '*' :: buf.drop 1 ++ ['*'] else buf) else res
  | f + 1, i, res, inSec, cnt, buf =>
    if i < t.length then
      let c := (chAt t i).getD ' '
      if c = '"' ∨ c = '\n' then
        mneGo t f (i + 1) ((if inSec then res ++ buf else res) ++ [c]) false 0 []
      else if c = '*' ∧ chAt t (i + 1) = some '*' then
        if inSec then mneGo t f (i + 2) res true cnt (buf ++ ['*', '*'])
        else mneGo t f (i + 2) (res ++ ['*', '*']) false cnt []
      else if c = '*' then
        if ¬ inSec then mneGo t f (i + 1) res true 1 ['*']
        else
          if cnt + 1 = 3 then mneGo t f (i + 1) res true (cnt + 1) (mneCleanBuf buf)
          else mneGo t f (i + 1) res true (cnt + 1) (buf ++ ['*'])
      else
        if inSec then mneGo t f (i + 1) res true cnt (buf ++ [c])
        else mneGo t f (i + 1) (res ++ [c]) false cnt []
    else if inSec then res ++ (if 3 ≤ cnt then '*' :: buf.drop 1 ++ ['*'] else buf) else res

/-- `mergeNestedEmphasis`. -/
def mergeNestedEmphasis (t : Str) : Str := mneGo t (t.length + 1) 0 [] false 0 []

/-! ## Stage 7.5: `fixSingleWordEmphasisAtLineStart` -/

/-- Match `^(\s*)\*\*([^*]+?)\*\*(.*)$` on one line. -/
def fswMatch (line : Str) : Option (Str × Str × Str) :=
  let lead := runLen isWS line
  match line.drop lead with
  | '*' :: '*' :: r2 =>
    let b := runLen (fun c => c ≠ '*') r2
    if b = 0 then none
    else
      match r2.drop b with
      | '*' :: '*' :: rest => some (line.take lead, r2.take b, rest)
      | _ => none
  | _ => none

/-- Process one line of stage 7.5. -/
def fswLine (line : Str) : Str :=
  let tr := jsTrim line
  if tr.head? = some '*' ∧ chAt tr 1 ≠ some '*' then line
  else
    match fswMatch line with
    | none => line
    | some (lead, bold, rest) =>
      if jsTrim rest ≠ [] then lead ++ s2l "***" ++ bold ++ s2l "**" ++ rest
      else lead ++ s2l "***" ++ bold ++ s2l "***"

/-- `fixSingleWordEmphasisAtLineStart`. -/
def fixSingleWordEmphasisAtLineStart (t : Str) : Str :=
  joinNl ((splitNl t).map fswLine)

/-! ## The pipeline (`processText`) -/

/-- The host context as the pipeline sees it: the Process Quotes setting and
the tag list of the current character (`none` models a context in which the
character lookup fails, which in the source throws inside the `try`). -/
structure FFConfig where
  processQuotes : Bool
  charTags : Option (List Str)

/-- The default configuration: Process Quotes disabled (the source default),
a character with no tags. -/
def dfltCfg : FFConfig := ⟨false, some []⟩

/-- Stages 0 through 7.5 together with height protection and restoration —
everything between block extraction and block restoration. -/
def coreStages (pq : Bool) (r0 : Str) : Str :=
  let r := normalizeSmartCharacters r0
  let hp := protectHeightMeasurements r
  let r := hp.1
  let r := if pq then processQuotes r else r
  let r := cleanupConsecutiveQuotes r
  let r := processNestedEmphasis r
  let r := cleanupQuadrupleAsterisks r
  let r := cleanupUnpairedDoubleAsterisks r
  let r := cleanupLoneAsterisks r
  let r := cleanupAsteriskSpacing r
  let r := cleanupQuoteSpacing r
  let r := processNarrative r
  let r := cleanupExcessNewlines r
  let r := cleanupExcessSpaces r
  let r := mergeNestedEmphasis r
  let r := fixSingleWordEmphasisAtLineStart r
  restoreHeightMeasurements r hp.2

/-- The body of `processText` up to the `try`/`catch`: context access (which
can throw), the Assistant bypass, and the stage sequence. -/
def processTextE (cfg : FFConfig) (text : Str) : Except Unit Str :=
  match cfg.charTags with
  | none => Except.error ()
  | some tags =>
    if (s2l "Assistant") ∈ tags then Except.ok text
    else
      let eb := extractProtectedBlocks (uncensorText text)
      Except.ok (restoreProtectedBlocks (coreStages cfg.processQuotes eb.1) eb.2)

/-- `processText`: the `try`/`catch` wrapper — any internal failure returns
the original input unchanged. -/
def processText (cfg : FFConfig) (text : Str) : Str :=
  match processTextE cfg text with
  | Except.ok r => r
  | Except.error _ => text

/-- Extraction followed by restoration, the round trip of the block
protector. -/
def extractRestore (s : Str) : Str :=
  restoreProtectedBlocks (extractProtectedBlocks s).1 (extractProtectedBlocks s).2

/-- Maximal `*`-run worker: current run and best so far. -/
def maxRunGo : Str → Nat → Nat → Nat
  | [], cur, best => max cur best
  | c :: t, cur, best =>
    if c = '*' then maxRunGo t (cur + 1) best else maxRunGo t 0 (max cur best)

/-- Does `s` contain a run of four or more consecutive `*`? -/
def hasQuadRun (s : Str) : Bool := decide (4 ≤ maxRunGo s 0 0)

/-! ## Supporting lemmas -/

theorem isPrefixOf_self_append (p r : Str) : p.isPrefixOf (p ++ r) = true := by
  induction p with
  | nil => simp [List.isPrefixOf]
  | cons c t ih => simp [List.isPrefixOf, ih]

theorem exists_of_isPrefixOf : ∀ p s : Str, p.isPrefixOf s = true → ∃ r, s = p ++ r := by
  intro p
  induction p with
  | nil => exact fun s _ => ⟨s, rfl⟩
  | cons c t ih =>
    intro s h
    cases s with
    | nil => simp [List.isPrefixOf] at h
    | cons d u =>
      simp only [List.isPrefixOf, Bool.and_eq_true, beq_iff_eq] at h
      obtain ⟨r, hr⟩ := ih u h.2
      exact ⟨r, by simp [h.1, hr]⟩

theorem splitFirst_self_append (pat r : Str) : splitFirst pat (pat ++ r) = some ([], r) := by
  cases he : pat ++ r with
  | nil =>
    rcases List.append_eq_nil.mp he with ⟨h1, h2⟩
    subst h1; subst h2
    simp [splitFirst, List.isPrefixOf]
  | cons c t =>
    have hp := isPrefixOf_self_append pat r
    have hd : (pat ++ r).drop pat.length = r := List.drop_left _ _
    rw [he] at hp hd
    simp [splitFirst, hp, hd]

theorem splitFirst_cons_of_single {a : Char} :
    ∀ (l r : Str), a ∉ l → splitFirst [a] (l ++ a :: r) = some (l, r) := by
  intro l
  induction l with
  | nil =>
    intro r _
    have : ([a] : Str) ++ r = a :: r := rfl
    rw [List.nil_append, ← this, splitFirst_self_append]
  | cons c t ih =>
    intro r h
    have hca : c ≠ a := fun hc => h (hc ▸ List.mem_cons_self c t)
    have hp : ([a] : Str).isPrefixOf (c :: (t ++ a :: r)) = false := by
      simp [List.isPrefixOf, Ne.symm hca]
    have ht : a ∉ t := fun hm => h (List.mem_cons_of_mem c hm)
    simp [splitFirst, hp, ih r ht]

theorem hasSubstr_nil_of_cons (c : Char) (p : Str) : hasSubstr (c :: p) [] = false := by
  simp [hasSubstr, List.isPrefixOf]

theorem hasSubstr_cons (pat : Str) (c : Char) (t : Str) :
    hasSubstr pat (c :: t) = (pat.isPrefixOf (c :: t) || hasSubstr pat t) := by
  by_cases hp : pat.isPrefixOf (c :: t) = true
  · simp [hasSubstr, hp]
  · simp only [Bool.not_eq_true] at hp
    simp [hasSubstr, hp]

theorem splitFirst_none_of_not_substr (pat : Str) :
    ∀ s : Str, hasSubstr pat s = false → splitFirst pat s = none := by
  intro s
  induction s with
  | nil =>
    intro h
    simp only [hasSubstr] at h
    simp [splitFirst, h]
  | cons c t ih =>
    intro h
    rw [hasSubstr_cons] at h
    simp only [Bool.or_eq_false_iff] at h
    simp [splitFirst, h.1, ih h.2]

theorem hasSubstr_sandwich (pat : Str) : ∀ pre post : Str, hasSubstr pat (pre ++ pat ++ post) = true := by
  intro pre
  induction pre with
  | nil =>
    intro post
    cases hs : pat ++ post with
    | nil =>
      rcases List.append_eq_nil.mp hs with ⟨h1, h2⟩
      subst h1; subst h2
      simp [hasSubstr, List.isPrefixOf]
    | cons c t =>
      have hp := isPrefixOf_self_append pat post
      rw [hs] at hp
      simp only [List.nil_append, hs]
      rw [hasSubstr_cons, hp]
      rfl
  | cons c t ih =>
    intro post
    simp only [List.cons_append]
    rw [hasSubstr_cons, ih post]
    simp

theorem exists_of_hasSubstr (pat : Str) :
    ∀ s : Str, hasSubstr pat s = true → ∃ pre post, s = pre ++ pat ++ post := by
  intro s
  induction s with
  | nil =>
    intro h
    simp only [hasSubstr] at h
    obtain ⟨r, hr⟩ := exists_of_isPrefixOf pat [] h
    exact ⟨[], r, by simp [hr]⟩
  | cons c t ih =>
    intro h
    rw [hasSubstr_cons, Bool.or_eq_true] at h
    rcases h with h | h
    · obtain ⟨r, hr⟩ := exists_of_isPrefixOf pat (c :: t) h
      exact ⟨[], r, by simp [hr]⟩
    · obtain ⟨pre, post, hp⟩ := ih h
      exact ⟨c :: pre, post, by simp [hp]⟩

theorem hasSubstr_of_within {pat l s : Str} (hinf : l <:+: s) (h : hasSubstr pat l = true) :
    hasSubstr pat s = true := by
  obtain ⟨u, v, huv⟩ := hinf
  obtain ⟨pre, post, hl⟩ := exists_of_hasSubstr pat l h
  subst hl
  rw [← huv]
  have : u ++ (pre ++ pat ++ post) ++ v = (u ++ pre) ++ pat ++ (post ++ v) := by simp
  rw [this]
  exact hasSubstr_sandwich pat _ _

theorem hasSubstr_false_of_within {pat l s : Str} (hinf : l <:+: s) (h : hasSubstr pat s = false) :
    hasSubstr pat l = false := by
  by_contra hc
  simp only [Bool.not_eq_false] at hc
  rw [hasSubstr_of_within hinf hc] at h
  cases h

theorem splitNl_decomp : ∀ s : Str, ∃ h tl, splitNl s = h :: tl ∧ h <+: s ∧ ∀ l ∈ tl, l <:+: s := by
  intro s
  induction s with
  | nil => exact ⟨[], [], rfl, List.nil_prefix, by simp⟩
  | cons c t ih =>
    obtain ⟨h, tl, he, hpre, hinf⟩ := ih
    by_cases hc : c = '\n'
    · subst hc
      refine ⟨[], splitNl t, by simp [splitNl], List.nil_prefix, ?_⟩
      intro l hl
      rw [he] at hl
      rcases List.mem_cons.mp hl with rfl | hl
      · exact hpre.isInfix.trans (List.infix_cons (List.infix_refl t))
      · exact (hinf l hl).trans (List.infix_cons (List.infix_refl t))
    · refine ⟨c :: h, tl, by simp [splitNl, hc, he], List.cons_prefix_cons.mpr ⟨rfl, hpre⟩, ?_⟩
      intro l hl
      exact (hinf l hl).trans (List.infix_cons (List.infix_refl t))

theorem joinNl_splitNl : ∀ s : Str, joinNl (splitNl s) = s := by
  intro s
  induction s with
  | nil => rfl
  | cons c t ih =>
    obtain ⟨h, tl, he, _, _⟩ := splitNl_decomp t
    by_cases hc : c = '\n'
    · subst hc
      rw [he] at ih
      simp [splitNl, he, joinNl, ih]
    · rw [he] at ih
      cases tl with
      | nil => simp [splitNl, hc, he, joinNl] at ih ⊢; simp [ih]
      | cons x xs => simp [splitNl, hc, he, joinNl] at ih ⊢; simp [ih]

theorem mmGo_none (fuel : Nat) :
    ∀ (s : Str) (p : Nat), hasSubstr msgLit s = false → mmGo fuel s p = none := by
  induction fuel with
  | zero => intro s p _; rfl
  | succ f ih =>
    intro s p h
    cases s with
    | nil =>
      simp only [hasSubstr] at h
      simp [mmGo, h]
    | cons c t =>
      rw [hasSubstr_cons] at h
      simp only [Bool.or_eq_false_iff] at h
      simp [mmGo, h.1, ih t (p + 1) h.2]

theorem msgMatchLen_none {line : Str} (h : hasSubstr msgLit line = false) :
    msgMatchLen line = none :=
  mmGo_none _ line 0 h

theorem msgStepGo_id : ∀ (ls : List Str) (idx : Nat),
    (∀ l ∈ ls, msgMatchLen l = none) → msgStepGo ls idx = (ls, [], idx) := by
  intro ls
  induction ls with
  | nil => intro idx _; rfl
  | cons l rest ih =>
    intro idx h
    have h1 : msgMatchLen l = none := h l (List.mem_cons_self l rest)
    have h2 := ih idx (fun x hx => h x (List.mem_cons_of_mem l hx))
    simp [msgStepGo, h1, h2]

theorem msgStep_id {s : Str} (h : hasSubstr msgLit s = false) (idx : Nat) :
    msgStep s idx = (s, [], idx) := by
  have hall : ∀ l ∈ splitNl s, msgMatchLen l = none := by
    intro l hl
    obtain ⟨hd, tl, he, hpre, hinf⟩ := splitNl_decomp s
    rw [he] at hl
    rcases List.mem_cons.mp hl with rfl | hl
    · exact msgMatchLen_none (hasSubstr_false_of_within hpre.isInfix h)
    · exact msgMatchLen_none (hasSubstr_false_of_within (hinf l hl) h)
  simp [msgStep, msgStepGo_id (splitNl s) idx hall, joinNl_splitNl]

theorem thinkGo_noop {s : Str} (h : hasSubstr thinkOpenL s = false) (fuel idx : Nat) :
    thinkGo fuel s idx = (s, [], idx) := by
  cases fuel with
  | zero => rfl
  | succ f => simp [thinkGo, splitFirst_none_of_not_substr _ _ h]

theorem thinkGo_nil (fuel idx : Nat) : thinkGo fuel [] idx = ([], [], idx) :=
  thinkGo_noop (by simp [thinkOpenL, s2l, hasSubstr, List.isPrefixOf]) fuel idx

theorem unclosedThink_noop {s : Str} (h : hasSubstr thinkOpenL s = false) (idx : Nat) :
    unclosedThink s idx = (s, [], idx) := by
  simp [unclosedThink, splitFirst_none_of_not_substr _ _ h]

theorem bracketGo_noop {s : Str} (h : hasSubstr ['['] s = false) (fuel idx : Nat) :
    bracketGo fuel s idx = (s, [], idx) := by
  cases fuel with
  | zero => rfl
  | succ f => simp [bracketGo, splitFirst_none_of_not_substr _ _ h]

theorem bracketGo_nil (fuel idx : Nat) : bracketGo fuel [] idx = ([], [], idx) :=
  bracketGo_noop (by simp [hasSubstr, List.isPrefixOf]) fuel idx

theorem unclosedBracket_noop {s : Str} (h : hasSubstr ['['] s = false) (idx : Nat) :
    unclosedBracket s idx = (s, [], idx) := by
  simp [unclosedBracket, splitFirst_none_of_not_substr _ _ h]

/-- Extraction is the identity on text free of protectable structures. -/
theorem extract_clean {s : Str} (h1 : hasSubstr thinkOpenL s = false)
    (h2 : hasSubstr msgLit s = false) (h3 : hasSubstr ['['] s = false) :
    extractProtectedBlocks s = (s, []) := by
  simp [extractProtectedBlocks, thinkGo_noop h1, unclosedThink_noop h1, msgStep_id h2,
    bracketGo_noop h3, unclosedBracket_noop h3]

/-- One step of `bracketGo` when the whole input is a single aside. -/
theorem bracketGo_single {c : Str} (h3 : ']' ∉ c) (f idx : Nat) :
    bracketGo (f + 1) ('[' :: c ++ [']']) idx =
      (pbPh idx, [(pbPh idx, '[' :: c ++ [']'])], idx + 1) := by
  have hb : splitFirst ['['] ('[' :: c ++ [']']) = some ([], c ++ [']']) := by
    have he : ('[' :: c ++ [']'] : Str) = ['['] ++ (c ++ [']']) := by simp
    rw [he, splitFirst_self_append]
  have hc : splitFirst [']'] (c ++ [']']) = some (c, []) := by
    have he : (c ++ [']'] : Str) = c ++ ']' :: [] := rfl
    rw [he, splitFirst_cons_of_single c [] h3]
  simp only [bracketGo]
  rw [hb]; dsimp only
  rw [hc]; dsimp only
  rw [bracketGo_nil]
  simp

/-- One step of `thinkGo` when the whole input is a single closed block. -/
theorem thinkGo_single {c : Str}
    (hc : splitFirst thinkCloseL (c ++ thinkCloseL) = some (c, [])) (f idx : Nat) :
    thinkGo (f + 1) (thinkOpenL ++ c ++ thinkCloseL) idx =
      (pbPh idx, [(pbPh idx, thinkOpenL ++ c ++ thinkCloseL)], idx + 1) := by
  have ho : splitFirst thinkOpenL (thinkOpenL ++ c ++ thinkCloseL) =
      some ([], c ++ thinkCloseL) := by
    have he : (thinkOpenL ++ c ++ thinkCloseL : Str) = thinkOpenL ++ (c ++ thinkCloseL) := by
      simp
    rw [he, splitFirst_self_append]
  simp only [thinkGo]
  rw [ho]; dsimp only
  rw [hc]; dsimp only
  rw [thinkGo_nil]
  simp

/-- `thinkGo` is the identity when the first open tag has no close tag. -/
theorem thinkGo_openNoClose {s pre rest : Str}
    (ho : splitFirst thinkOpenL s = some (pre, rest))
    (hc : splitFirst thinkCloseL rest = none) (f idx : Nat) :
    thinkGo (f + 1) s idx = (s, [], idx) := by
  simp only [thinkGo]
  rw [ho]; dsimp only
  rw [hc]

/-- The concrete steps on the bare first placeholder. -/
theorem unclosedThink_ph0 (idx : Nat) : unclosedThink (pbPh 0) idx = (pbPh 0, [], idx) :=
  unclosedThink_noop (by decide) idx

theorem msgStep_ph0 (idx : Nat) : msgStep (pbPh 0) idx = (pbPh 0, [], idx) :=
  msgStep_id (by decide) idx

theorem bracketGo_ph0 (idx : Nat) :
    bracketGo ((pbPh 0).length + 1) (pbPh 0) idx = (pbPh 0, [], idx) :=
  bracketGo_noop (by decide) _ idx

theorem unclosedBracket_ph0 (idx : Nat) : unclosedBracket (pbPh 0) idx = (pbPh 0, [], idx) :=
  unclosedBracket_noop (by decide) idx

/-- Extraction of a single bracketed aside spanning the whole input. -/
theorem extract_bracket {c : Str} (h1 : hasSubstr thinkOpenL ('[' :: c ++ [']']) = false)
    (h2 : hasSubstr msgLit ('[' :: c ++ [']']) = false) (h3 : ']' ∉ c) :
    extractProtectedBlocks ('[' :: c ++ [']']) = (pbPh 0, [(pbPh 0, '[' :: c ++ [']'])]) := by
  simp only [extractProtectedBlocks, thinkGo_noop h1, unclosedThink_noop h1, msgStep_id h2,
    bracketGo_single h3, unclosedBracket_ph0]
  simp

/-- Extraction of a single closed think block spanning the whole input. -/
theorem extract_closed_think {c : Str}
    (hc : splitFirst thinkCloseL (c ++ thinkCloseL) = some (c, [])) :
    extractProtectedBlocks (thinkOpenL ++ c ++ thinkCloseL) =
      (pbPh 0, [(pbPh 0, thinkOpenL ++ c ++ thinkCloseL)]) := by
  simp only [extractProtectedBlocks, thinkGo_single hc, unclosedThink_ph0, msgStep_ph0,
    bracketGo_ph0, unclosedBracket_ph0]
  simp

/-- Extraction of an unclosed think block spanning the whole input. -/
theorem extract_unclosed_think {c : Str} (hc : hasSubstr thinkCloseL c = false) :
    extractProtectedBlocks (thinkOpenL ++ c) = (pbPh 0, [(pbPh 0, thinkOpenL ++ c)]) := by
  have ho : splitFirst thinkOpenL (thinkOpenL ++ c) = some ([], c) :=
    splitFirst_self_append _ _
  have hu : unclosedThink (thinkOpenL ++ c) 0 = (pbPh 0, [(pbPh 0, thinkOpenL ++ c)], 1) := by
    simp only [unclosedThink]
    rw [ho]
    dsimp only
    simp
  simp only [extractProtectedBlocks,
    thinkGo_openNoClose ho (splitFirst_none_of_not_substr _ _ hc), hu, msgStep_ph0,
    bracketGo_ph0, unclosedBracket_ph0]
  simp

/-- `$`-substitution is trivial for replacement text without a dollar sign. -/
theorem dollarSub_id (bef mat aft : Str) :
    ∀ repl : Str, '$' ∉ repl → dollarSub bef mat aft repl = repl := by
  intro repl
  induction repl with
  | nil => intro _; rfl
  | cons c t ih =>
    intro h
    have hc : c ≠ '$' := fun hc => h (hc ▸ List.mem_cons_self c t)
    have ht : '$' ∉ t := fun hm => h (List.mem_cons_of_mem c hm)
    rw [dollarSub.eq_def]
    dsimp only
    rw [if_neg hc, ih ht]

theorem splitFirst_nil {pat : Str} (h : pat ≠ []) : splitFirst pat [] = none := by
  cases pat with
  | nil => exact absurd rfl h
  | cons c t => simp [splitFirst, List.isPrefixOf]

theorem jsRAGo_nil (pat repl : Str) : ∀ (fuel : Nat) (done : Str),
    jsRAGo pat repl fuel done [] = [] := by
  intro fuel done
  cases fuel with
  | zero => rfl
  | succ f =>
    by_cases hp : pat = []
    · simp [jsRAGo, hp]
    · simp [jsRAGo, hp, splitFirst_nil hp]

/-- Replacing the placeholder inside the placeholder itself yields the
(dollar-free) content. -/
theorem jsReplaceAll_self {pat repl : Str} (hne : pat ≠ []) (hd : '$' ∉ repl) :
    jsReplaceAll pat repl pat = repl := by
  have hs : splitFirst pat pat = some ([], []) := by
    have h0 := splitFirst_self_append pat []
    rwa [List.append_nil] at h0
  cases hp : pat with
  | nil => exact absurd hp hne
  | cons c t =>
    rw [← hp]
    show jsRAGo pat repl (pat.length + 1) [] pat = repl
    have hl : pat.length + 1 = pat.length + 1 := rfl
    simp [jsRAGo, hne, hs, jsRAGo_nil, dollarSub_id _ _ _ _ hd]

/-- Restoring a map with the single placeholder over the bare placeholder. -/
theorem restore_single {content : Str} (hd : '$' ∉ content) :
    restoreProtectedBlocks (pbPh 0) [(pbPh 0, content)] = content := by
  show jsReplaceAll (pbPh 0) content (pbPh 0) = content
  exact jsReplaceAll_self (by decide) hd

/-- The stage chain is the identity on the bare first placeholder. -/
theorem coreStages_ph0 : coreStages false (pbPh 0) = pbPh 0 := by decide

/-- The whole pipeline on an input whose extraction is a single placeholder
covering the entire text. -/
theorem processTextE_block {x : Str} (hu : uncensorText x = x)
    (he : extractProtectedBlocks x = (pbPh 0, [(pbPh 0, x)])) (hd : '$' ∉ x) :
    processTextE dfltCfg x = Except.ok x := by
  unfold processTextE dfltCfg
  dsimp only
  rw [hu, he]
  dsimp only
  rw [coreStages_ph0, restore_single hd]
  simp

theorem processText_block {x : Str} (hu : uncensorText x = x)
    (he : extractProtectedBlocks x = (pbPh 0, [(pbPh 0, x)])) (hd : '$' ∉ x) :
    processText dfltCfg x = x := by
  unfold processText
  rw [processTextE_block hu he hd]

theorem maxRunGo_best : ∀ (s : Str) (cur best : Nat),
    maxRunGo s cur best = max best (maxRunGo s cur 0) := by
  intro s
  induction s with
  | nil =>
    intro cur best
    simp only [maxRunGo]
    omega
  | cons c t ih =>
    intro cur best
    by_cases hc : c = '*'
    · simp only [maxRunGo, if_pos hc]
      exact ih (cur + 1) best
    · simp only [maxRunGo, if_neg hc]
      rw [ih 0 (max cur best), ih 0 (max cur 0)]
      omega

theorem maxRunGo_stars : ∀ (k : Nat) (r : Str) (cur best : Nat),
    maxRunGo (List.replicate k '*' ++ r) cur best = maxRunGo r (cur + k) best := by
  intro k
  induction k with
  | zero => intro r cur best; simp
  | succ n ih =>
    intro r cur best
    simp only [List.replicate_succ, List.cons_append, maxRunGo, if_pos rfl, if_true]
    rw [show ((List.replicate n '*').append r) = List.replicate n '*' ++ r from rfl, ih]
    have he : cur + 1 + n = cur + (n + 1) := by omega
    rw [he]

theorem maxRunGo_nonstar {c : Char} (hc : c ≠ '*') (X : Str) (cur best : Nat) :
    maxRunGo (c :: X) cur best = maxRunGo X 0 (max cur best) := by
  simp [maxRunGo, hc]

theorem maxRunGo_replicate (k : Nat) : maxRunGo (List.replicate k '*') 0 0 = k := by
  have h := maxRunGo_stars k [] 0 0
  rw [List.append_nil] at h
  simpa [maxRunGo] using h

theorem cqaGo_le : ∀ (s : Str) (n : Nat), maxRunGo (cqaGo s n) 0 0 ≤ 3 := by
  intro s
  induction s with
  | nil =>
    intro n
    show maxRunGo (cqaStars n) 0 0 ≤ 3
    unfold cqaStars
    by_cases h4 : 4 ≤ n
    · rw [if_pos h4, maxRunGo_replicate]
    · rw [if_neg h4, maxRunGo_replicate]
      omega
  | cons c t ih =>
    intro n
    by_cases hc : c = '*'
    · simp only [cqaGo, if_pos hc]
      exact ih (n + 1)
    · simp only [cqaGo, if_neg hc]
      unfold cqaStars
      rw [maxRunGo_stars _ (c :: cqaGo t 0) 0 0, maxRunGo_nonstar hc, maxRunGo_best]
      have h1 := ih 0
      have h2 : (if 4 ≤ n then 3 else n) ≤ 3 := by split <;> omega
      omega

theorem cleanup_no_quad (s : Str) : hasQuadRun (cleanupQuadrupleAsterisks s) = false := by
  have h := cqaGo_le s 0
  simp only [hasQuadRun, cleanupQuadrupleAsterisks, decide_eq_false_iff_not]
  omega

theorem cqaGo_replicate (k : Nat) : ∀ m : Nat, cqaGo (List.replicate k '*') m = cqaStars (m + k) := by
  induction k with
  | zero => intro m; simp [cqaGo]
  | succ n ih =>
    intro m
    simp only [List.replicate_succ, cqaGo, if_pos rfl, if_true]
    rw [ih]
    have he : m + 1 + n = m + (n + 1) := by omega
    rw [he]

/-! ## The claims -/

/-- Claim C1: for every configuration and input string, `processText` returns
some string, and whenever the pipeline body throws (modelled by
`processTextE` returning an error), the original input is returned unchanged —
no partial result surfaces. -/
theorem c1_pipeline_total_and_failsafe (cfg : FFConfig) (x : Str) :
    (∃ y : Str, processText cfg x = y) ∧
    ∀ e : Unit, processTextE cfg x = Except.error e → processText cfg x = x := by
  refine ⟨⟨processText cfg x, rfl⟩, ?_⟩
  intro e h
  unfold processText
  rw [h]

/-- Witness for C1 at a concrete failing context: a configuration whose
character lookup fails makes the body throw, and the input comes back
unchanged. -/
theorem c1_witness :
    processTextE ⟨false, none⟩ (s2l "hi") = Except.error () ∧
    processText ⟨false, none⟩ (s2l "hi") = s2l "hi" :=
  ⟨rfl, (c1_pipeline_total_and_failsafe ⟨false, none⟩ (s2l "hi")).2 () rfl⟩

/-- Counterexample to claim C2: the pipeline is not idempotent — for the
input `a`, one application gives `*a*` but a second application gives
`***a***`. -/
theorem c2_counterexample :
    processText dfltCfg (processText dfltCfg (s2l "a")) ≠ processText dfltCfg (s2l "a") := by
  decide

/-- Claim C2 as amended: idempotence fails in general, but holds on
representative already-correct inputs; a second application of the pipeline
to the representative input from the spec leaves its output unchanged. -/
theorem c2_amended :
    processText dfltCfg (processText dfltCfg (s2l "\"Hi\" she said")) =
      processText dfltCfg (s2l "\"Hi\" she said") := by
  decide

/-- Claim C3: with the quote-processing setting enabled (and a non-assistant
character), the input with an emphasis pair directly wrapping a full quote
comes out with the markers stripped. -/
theorem c3_quote_wrap_removed (tags : List Str) (h : s2l "Assistant" ∉ tags) :
    processText ⟨true, some tags⟩ (s2l "*\"Hello\"*") = s2l "\"Hello\"" := by
  have he : processTextE ⟨true, some tags⟩ (s2l "*\"Hello\"*") =
      Except.ok (s2l "\"Hello\"") := by
    unfold processTextE
    dsimp only
    rw [if_neg h]
    rfl
  unfold processText
  rw [he]

/-- Witness for C3 at the concrete enabled configuration. -/
theorem c3_witness : processText ⟨true, some []⟩ (s2l "*\"Hello\"*") = s2l "\"Hello\"" :=
  c3_quote_wrap_removed [] (by simp)

/-- Counterexample to claim C4: text inside a bracketed aside is not always
byte-identical — the uncensoring pre-pass applies inside protected blocks, so
`[s_x]` becomes `[sex]`. -/
theorem c4_counterexample :
    processText dfltCfg (s2l "[s_x]") = s2l "[sex]" ∧
    processText dfltCfg (s2l "[s_x]") ≠ s2l "[s_x]" := by
  constructor <;> decide

/-- Claim C4 as amended: a protected block is byte-identical through the
pipeline provided the uncensoring pre-pass leaves the text unchanged and the
block content is structurally inert (no close delimiter of its own kind, no
nested protectable structure, no dollar sign).  All three block forms are
covered: a bracketed aside, a closed think block and an unclosed think
block, each spanning the whole input. -/
theorem c4_amended :
    (∀ c : Str,
      uncensorText ('[' :: c ++ [']']) = '[' :: c ++ [']'] →
      hasSubstr thinkOpenL ('[' :: c ++ [']']) = false →
      hasSubstr msgLit ('[' :: c ++ [']']) = false →
      ']' ∉ c → '$' ∉ c →
      processText dfltCfg ('[' :: c ++ [']']) = '[' :: c ++ [']']) ∧
    (∀ c : Str,
      uncensorText (thinkOpenL ++ c ++ thinkCloseL) = thinkOpenL ++ c ++ thinkCloseL →
      splitFirst thinkCloseL (c ++ thinkCloseL) = some (c, []) →
      '$' ∉ c →
      processText dfltCfg (thinkOpenL ++ c ++ thinkCloseL) = thinkOpenL ++ c ++ thinkCloseL) ∧
    (∀ c : Str,
      uncensorText (thinkOpenL ++ c) = thinkOpenL ++ c →
      hasSubstr thinkCloseL c = false →
      '$' ∉ c →
      processText dfltCfg (thinkOpenL ++ c) = thinkOpenL ++ c) := by
  refine ⟨?_, ?_, ?_⟩
  · intro c hu h1 h2 h3 h4
    have hd : '$' ∉ ('[' :: c ++ [']'] : Str) := by
      intro hmem
      rcases List.mem_cons.mp hmem with h | hmem2
      · exact absurd h (by decide)
      · rcases List.mem_append.mp hmem2 with h | h
        · exact h4 h
        · exact absurd (List.mem_singleton.mp h) (by decide)
    exact processText_block hu (extract_bracket h1 h2 h3) hd
  · intro c hu hc hds
    have hd : '$' ∉ (thinkOpenL ++ c ++ thinkCloseL : Str) := by
      intro hmem
      simp only [List.mem_append] at hmem
      rcases hmem with (h | h) | h
      · exact absurd h (by decide)
      · exact hds h
      · exact absurd h (by decide)
    exact processText_block hu (extract_closed_think hc) hd
  · intro c hu hc hds
    have hd : '$' ∉ (thinkOpenL ++ c : Str) := by
      intro hmem
      simp only [List.mem_append] at hmem
      rcases hmem with h | h
      · exact absurd h (by decide)
      · exact hds h
    exact processText_block hu (extract_unclosed_think hc) hd

/-- Witness for the amended C4 at a concrete aside containing spaces and
ordinary words. -/
theorem c4_amended_witness :
    processText dfltCfg (s2l "[he said hi]") = s2l "[he said hi]" := by
  have h := c4_amended.1 (s2l "he said hi") (by decide) (by decide) (by decide)
    (by decide) (by decide)
  have he : ('[' :: s2l "he said hi" ++ [']'] : Str) = s2l "[he said hi]" := rfl
  rw [he] at h
  exact h

/-- Counterexample to claim C5: a run of four asterisks inside a protected
bracketed aside reaches the final output untouched, so the final output can
contain a run of 4 or more `*`. -/
theorem c5_counterexample :
    processText dfltCfg (s2l "[****]") = s2l "[****]" ∧
    hasQuadRun (processText dfltCfg (s2l "[****]")) = true := by
  constructor <;> decide

/-- Claim C5 as amended: the quadruple-asterisk cleanup stage itself
guarantees the property — its output never contains a run of 4 or more `*`,
and a run of 4 or more collapses to exactly three — but restored protected
content can still carry longer runs into the final pipeline output. -/
theorem c5_amended :
    (∀ s : Str, hasQuadRun (cleanupQuadrupleAsterisks s) = false) ∧
    (∀ n : Nat, 4 ≤ n →
      cleanupQuadrupleAsterisks (List.replicate n '*') = List.replicate 3 '*') := by
  refine ⟨cleanup_no_quad, ?_⟩
  intro n h
  unfold cleanupQuadrupleAsterisks
  rw [cqaGo_replicate n 0]
  simp only [cqaStars, Nat.zero_add]
  rw [if_pos h]

/-- Witness for the amended C5 at concrete marker runs. -/
theorem c5_amended_witness :
    cleanupQuadrupleAsterisks (List.replicate 6 '*') = List.replicate 3 '*' ∧
    hasQuadRun (cleanupQuadrupleAsterisks (s2l "ab****cd")) = false :=
  ⟨c5_amended.2 6 (by decide), c5_amended.1 (s2l "ab****cd")⟩

/-- The CYOA test input of the source: an italicized lead line followed by
four enumerated list lines. -/
def cyoaInput : Str :=
  s2l "*The ancient tome presents you with several choices:*\n\n1. Open the mysterious door\n2> Investigate the strange sounds\nA) Talk to the old man\nB. Run away as fast as possible"

/-- Counterexample to claim C6: a list-marker line does not always pass
through unchanged — the excess-space cleanup still normalizes its interior
spacing. -/
theorem c6_counterexample :
    processText dfltCfg (s2l "1. a  b") = s2l "1. a b" ∧
    processText dfltCfg (s2l "1. a  b") ≠ s2l "1. a  b" := by
  constructor <;> decide

/-- Claim C6 as amended: list-marker lines are exempt from emphasis
processing — on the source's representative CYOA input every such line
passes through unchanged and never gets wrapped in emphasis, the whole input
being a fixed point of the pipeline. -/
theorem c6_amended : processText dfltCfg cyoaInput = cyoaInput := by decide

/-- Claim C7: a narration segment following a quoted span is wrapped in
exactly one pair of italics markers, the quote untouched and one separating
space preserved. -/
theorem c7_narration_italicized :
    processText dfltCfg (s2l "\"Hi\" she said") = s2l "\"Hi\" *she said*" := by
  decide

/-- Claim C8: a lone single-emphasis word inside a narration span is promoted
to bold. -/
theorem c8_nested_promoted :
    processText dfltCfg (s2l "*The cat was *very* cute*") =
      s2l "*The cat was **very** cute*" := by
  decide

/-- Counterexample to claim C9: extract followed by restore is not the
identity — a think block nested inside a bracketed aside is restored
inner-first, leaving a placeholder token in the result. -/
theorem c9_counterexample :
    extractRestore (s2l "[<think>a</think>]") = s2l "[__PROTECTED_BLOCK_PLACEHOLDER_0__]" ∧
    extractRestore (s2l "[<think>a</think>]") ≠ s2l "[<think>a</think>]" := by
  constructor <;> decide

/-- Claim C9 as amended: extract followed by restore is the identity provided
protected structures do not nest: it holds for any input with no protectable
structure at all, and for a single bracketed aside whose content is free of
closing brackets, think tags, message labels and dollar signs. -/
theorem c9_amended :
    (∀ s : Str,
      hasSubstr thinkOpenL s = false → hasSubstr msgLit s = false →
      hasSubstr ['['] s = false → extractRestore s = s) ∧
    (∀ c : Str,
      hasSubstr thinkOpenL ('[' :: c ++ [']']) = false →
      hasSubstr msgLit ('[' :: c ++ [']']) = false →
      ']' ∉ c → '$' ∉ c →
      extractRestore ('[' :: c ++ [']']) = '[' :: c ++ [']']) := by
  constructor
  · intro s h1 h2 h3
    unfold extractRestore
    rw [extract_clean h1 h2 h3]
    rfl
  · intro c h1 h2 h3 h4
    have hd : '$' ∉ ('[' :: c ++ [']'] : Str) := by
      intro hmem
      rcases List.mem_cons.mp hmem with h | hmem2
      · exact absurd h (by decide)
      · rcases List.mem_append.mp hmem2 with h | h
        · exact h4 h
        · exact absurd (List.mem_singleton.mp h) (by decide)
    unfold extractRestore
    rw [extract_bracket h1 h2 h3]
    exact restore_single hd

/-- Witness for the amended C9 at concrete inputs. -/
theorem c9_amended_witness :
    extractRestore (s2l "no blocks here") = s2l "no blocks here" ∧
    extractRestore (s2l "[a *b* c]") = s2l "[a *b* c]" := by
  constructor
  · exact c9_amended.1 (s2l "no blocks here") (by decide) (by decide) (by decide)
  · have h := c9_amended.2 (s2l "a *b* c") (by decide) (by decide) (by decide) (by decide)
    have he : ('[' :: s2l "a *b* c" ++ [']'] : Str) = s2l "[a *b* c]" := rfl
    rw [he] at h
    exact h

end FormatFixer
